import Mathlib

/-!
Shallow embedding of the transaction-normalization core of `src/main.py`
(`process_transactions` together with the record shaping used by `main` for
CSV/spreadsheet export).  Python character classes `\d`, `\w`, `\s` and
`str.strip`/`str.upper` are modelled on their ASCII fragment, which covers
every input in scope (the statement layouts fixed by the source bank are
ASCII).  The regex

  (\d{2}/\d{2}/\d{2})\s+(\d{2}/\d{2}/\d{2})\s+(\w+)\s+([\d,]+\.\d{2})\s+([\d,]+\.\d{2})(?:Dr|Cr)

is embedded as a deterministic maximal-munch parser `matchAt`: this is
faithful to Python backtracking semantics because every repeated class in the
pattern is disjoint from the character that must follow it (`\w` vs `\s`,
`[\d,]` vs `.`, `\s` vs `\d`/`\w`), so the greedy engine never benefits from
giving characters back.  `re.finditer` is embedded as the left-to-right scan
`findAll`.
-/

namespace BankParse

/-- ASCII fragment of the Python regex class `\d`. -/
def digitC (c : Char) : Bool := c.isDigit

/-- ASCII fragment of the Python regex class `[\d,]`. -/
def digitCommaC (c : Char) : Bool := c.isDigit || c == ','

/-- ASCII fragment of the Python regex class `\w` (letters, digits, underscore). -/
def wordC (c : Char) : Bool := c.isAlphanum || c == '_'

/-- ASCII fragment of the Python regex class `\s` (also the set stripped by
Python `str.strip()`). -/
def spaceC (c : Char) : Bool :=
  c == ' ' || c == '\t' || c == '\n' || c == '\r' || c == '\x0b' || c == '\x0c'

/-- Python `str.strip()` on the ASCII fragment: drop leading and trailing
whitespace characters. -/
def pyStrip (s : String) : String :=
  (((s.toList.dropWhile spaceC).reverse.dropWhile spaceC).reverse).asString

/-- A cell of an extracted table row: Python values reaching the normalizer are
strings, numbers or `None`.  Only the string/non-string distinction and the
string payload affect `process_transactions`, so the numeric payload is kept
abstract as an integer (float payloads are never inspected). -/
inductive Cell where
  | str (s : String)
  | num (n : Int)
  | null
deriving DecidableEq

/-- A row: the `table_df.to_dict('records')` dictionary, as an association
list in Python dict insertion order (column order). -/
abbrev Row := List (String × Cell)

/-- One extracted table, mirroring the `table_info` dictionaries built by
`extract_tables_from_pdf` (the `coordinates` entry is never read by the
normalizer and is left out of the model). -/
structure ExtractedTable where
  table_number : Nat
  columns : List String
  row_count : Nat
  data : List Row
  page : Option Nat
deriving DecidableEq

/-- The `all_tables` dictionary handed to `process_transactions`: a table
count, the table list, and the error message present on extraction failure. -/
structure TablesData where
  number_of_tables : Nat
  tables : List ExtractedTable
  error : Option String
deriving DecidableEq

/-- The Python condition `isinstance(val, str) and val.strip()` filtering the
cells of a row before joining. -/
def keepTest : Cell → Bool
  | .str s => !(pyStrip s == "")
  | _ => false

/-- Extract the payload of a string cell. -/
def cellStr : Cell → Option String
  | .str s => some s
  | _ => none

/-- Python `" ".join(xs)`: the elements separated by single spaces. -/
def joinSp : List String → String
  | [] => ""
  | [x] => x
  | x :: y :: rest => x ++ " " ++ joinSp (y :: rest)

/-- Line 85 of `src/main.py`:
`row_text = " ".join(val for val in row.values() if isinstance(val, str) and val.strip())`. -/
def rowText (row : Row) : String :=
  joinSp (((row.map Prod.snd).filter keepTest).filterMap cellStr)

/-- The five captured groups of one match of the transaction pattern. -/
structure TxnMatch where
  post : String
  value : String
  word : String
  amt : String
  bal : String
deriving DecidableEq

/-- One-or-more repetition of a character class, greedy (`X+` in the pattern;
greediness is exact here, see the file comment). -/
def pPlus (p : Char → Bool) (s : List Char) : Option (List Char × List Char) :=
  if (s.takeWhile p).isEmpty then none else some (s.takeWhile p, s.dropWhile p)

/-- Shape test for the eight characters of a `\d{2}/\d{2}/\d{2}` date token. -/
def isDateChars : List Char → Bool
  | [d1, d2, s1, d3, d4, s2, d5, d6] =>
    digitC d1 && digitC d2 && s1 == '/' && digitC d3 && digitC d4 && s2 == '/' &&
      digitC d5 && digitC d6
  | _ => false

/-- The date sub-pattern `(\d{2}/\d{2}/\d{2})`: consume eight characters of
date shape, returning the captured characters and the rest. -/
def pDate (s : List Char) : Option (List Char × List Char) :=
  if isDateChars (s.take 8) then some (s.take 8, s.drop 8) else none

/-- The amount sub-pattern `([\d,]+\.\d{2})`: a nonempty run of digits and
commas, a literal dot, and exactly two digits. -/
def pAmount (s : List Char) : Option (List Char × List Char) :=
  match pPlus digitCommaC s with
  | none => none
  | some (ds, r1) =>
    match r1 with
    | dot :: a :: b :: r2 =>
      if dot == '.' && digitC a && digitC b then some (ds ++ [dot, a, b], r2) else none
    | _ => none

/-- The non-capturing suffix `(?:Dr|Cr)`. -/
def pSuffix (s : List Char) : Option (List Char) :=
  match s with
  | a :: b :: r => if (a == 'D' || a == 'C') && b == 'r' then some r else none
  | _ => none

/-- Attempt the whole transaction pattern at the start of `s`, returning the
five captured groups and the remaining input after the consumed suffix. -/
def matchAt (s : List Char) : Option (TxnMatch × List Char) :=
  (pDate s).bind fun p1 =>
  (pPlus spaceC p1.2).bind fun p2 =>
  (pDate p2.2).bind fun p3 =>
  (pPlus spaceC p3.2).bind fun p4 =>
  (pPlus wordC p4.2).bind fun p5 =>
  (pPlus spaceC p5.2).bind fun p6 =>
  (pAmount p6.2).bind fun p7 =>
  (pPlus spaceC p7.2).bind fun p8 =>
  (pAmount p8.2).bind fun p9 =>
  (pSuffix p9.2).bind fun r10 =>
  some ({ post := p1.1.asString, value := p3.1.asString, word := p5.1.asString,
          amt := p7.1.asString, bal := p9.1.asString }, r10)

/-- Fuelled scan for `re.finditer`: try the pattern at each position from left
to right, continuing after the end of each match (non-overlapping).  Every
successful match consumes at least one character, so fuel equal to the input
length is always sufficient (`findAllAux_fuel_irrel` below certifies this). -/
def findAllAux : Nat → List Char → List TxnMatch
  | 0, _ => []
  | fuel + 1, s =>
    match matchAt s with
    | some (m, rest) => m :: findAllAux fuel rest
    | none =>
      match s with
      | [] => []
      | _ :: t => findAllAux fuel t

/-- All non-overlapping matches of the transaction pattern, left to right:
`pattern.finditer(row_text)`. -/
def findAll (s : List Char) : List TxnMatch := findAllAux s.length s

/-- Python `s.upper()` on the ASCII fragment: upper-case every character. -/
def pyUpper (s : String) : String := (s.toList.map Char.toUpper).asString

/-- Python `s.replace(',', '')`: remove every comma. -/
def removeCommas (s : String) : String :=
  (s.toList.filter (fun c => !(c == ','))).asString

/-- One output record, with the exact keys used at lines 99-106 of
`src/main.py` (`Post Date`, `Value Date`, `Details`, `Debit`, `Credit`,
`Balance`). -/
structure TransactionRecord where
  postDate : String
  valueDate : String
  details : String
  debit : String
  credit : String
  balance : String
deriving DecidableEq

/-- Lines 90-106 of `src/main.py`: build one record from one match. -/
def recordOfMatch (m : TxnMatch) : TransactionRecord :=
  let tranType := pyUpper m.word
  let amount := removeCommas m.amt
  let balance := removeCommas m.bal
  { postDate := m.post
    valueDate := m.value
    details := tranType
    debit := if tranType = "DEBIT" then amount else ""
    credit := if tranType = "CREDIT" then amount else ""
    balance := balance }

/-- The body of the row loop: skip rows with empty flattened text, otherwise
emit one record per match of the pattern. -/
def processRow (row : Row) : List TransactionRecord :=
  if rowText row = "" then []
  else (findAll (rowText row).toList).map recordOfMatch

/-- The two nested loops of `process_transactions` over a table list. -/
def processTables (ts : List ExtractedTable) : List TransactionRecord :=
  ((ts.map (fun t => (t.data.map processRow).flatten)).flatten)

/-- `process_transactions` of `src/main.py`: the records of every row of every
table, in table-then-row-then-match order. -/
def process_transactions (td : TablesData) : List TransactionRecord :=
  processTables td.tables

/-! Spec-side definitions, written from the specification text rather than the
source, for comparison with the code-side definitions above. -/

/-- Shape of a captured amount group as the pattern actually constrains it: a
nonempty run of characters that are digits or commas, a dot, and two digits. -/
def AmtShape (t : String) : Prop :=
  ∃ ds a b, t.toList = ds ++ ['.', a, b] ∧ ds ≠ [] ∧ ds.all digitCommaC = true ∧
    digitC a = true ∧ digitC b = true

/-- Modelled from the spec: a cell contributing to the flattened row text is
one whose value is a string that is non-empty after trimming whitespace,
i.e. a string with at least one non-whitespace character; it contributes its
(untrimmed) payload. -/
def specKeep : Cell → Option String
  | .str s => if s.toList.all spaceC then none else some s
  | .num _ => none
  | .null => none

/-- Modelled from the spec: an amount token made of "one-or-more digits
optionally grouped with commas, a literal decimal point, and exactly 2
digits" — read as weakly as the words allow: the part before the point uses
only digits and commas and holds at least one digit.  (The decomposition at
the decimal point is forced, since the integer part may not contain a dot.) -/
def specAmountToken (s : String) : Bool :=
  match s.toList.drop (s.toList.length - 3) with
  | ['.', a, b] =>
    digitC a && digitC b && !(s.toList.take (s.toList.length - 3)).isEmpty &&
      (s.toList.take (s.toList.length - 3)).all digitCommaC &&
      (s.toList.take (s.toList.length - 3)).any digitC
  | _ => false

/-- The amount-token shape the regex `[\d,]+\.\d{2}` actually enforces, as an
executable test: one-or-more characters that are digits or commas, then a
literal decimal point, then exactly 2 digits. -/
def regexAmountToken (s : String) : Bool :=
  match s.toList.drop (s.toList.length - 3) with
  | ['.', a, b] =>
    digitC a && digitC b && !(s.toList.take (s.toList.length - 3)).isEmpty &&
      (s.toList.take (s.toList.length - 3)).all digitCommaC
  | _ => false

/-! Exception-aware model of the same pipeline.  The only operation inside
`process_transactions` that could raise for a well-formed `tables_data` input
is the string join at line 85, which raises `TypeError` when handed a
non-string: it is modelled as the fallible `pyJoinE`.  Every other operation
(`dict.get` with default, regex matching on a string, `str.upper`,
`str.replace`, list append, `pd.DataFrame` on a list of uniform dicts) is
total on such inputs. -/

/-- Whether a cell is a Python `str`. -/
def isStrCell : Cell → Bool
  | .str _ => true
  | _ => false

/-- Python `" ".join(vals)` with its `TypeError` on non-string elements. -/
def pyJoinE (vals : List Cell) : Except String String :=
  if vals.all isStrCell then Except.ok (joinSp (vals.filterMap cellStr))
  else Except.error "TypeError: sequence item: expected str instance"

/-- Line 85 with the join's fallibility made explicit. -/
def rowTextE (row : Row) : Except String String :=
  pyJoinE ((row.map Prod.snd).filter keepTest)

/-- The row loop body in the exception model. -/
def processRowE (row : Row) : Except String (List TransactionRecord) :=
  (rowTextE row).bind fun rt =>
    if rt = "" then Except.ok []
    else Except.ok ((findAll rt.toList).map recordOfMatch)

/-- The nested loops of `process_transactions` in the exception model. -/
def processTablesE (ts : List ExtractedTable) : Except String (List TransactionRecord) :=
  (ts.mapM (fun (t : ExtractedTable) => (t.data.mapM processRowE).map List.flatten)).map
    List.flatten

/-- `process_transactions` in the exception model. -/
def process_transactionsE (td : TablesData) : Except String (List TransactionRecord) :=
  processTablesE td.tables

/-! Model of the presentation step of `main` (lines 121-140): the dataframe
built from the record dictionaries and its CSV rendering with
`index=False`. -/

/-- The record dictionary built at lines 99-106, key-value pairs in insertion
order. -/
def recordToRow (r : TransactionRecord) : List (String × String) :=
  [("Post Date", r.postDate), ("Value Date", r.valueDate), ("Details", r.details),
   ("Debit", r.debit), ("Credit", r.credit), ("Balance", r.balance)]

/-- Column resolution of `pd.DataFrame(records)`: the union of the record
dictionaries' keys, in order of first appearance. -/
def dfColumns (kvrows : List (List (String × String))) : List String :=
  kvrows.foldl (fun acc kvs => acc ++ (kvs.map Prod.fst).filter (fun k => !(acc.contains k))) []

/-- A dataframe: ordered columns plus rows of cell strings. -/
structure DataFrame where
  columns : List String
  rows : List (List String)
deriving DecidableEq

/-- `pd.DataFrame(records)`: columns from the dictionaries' keys, each row
holding, per column, the value the record dictionary binds to that key. -/
def mkDataFrame (recs : List TransactionRecord) : DataFrame :=
  { columns := dfColumns (recs.map recordToRow)
    rows := (recs.map recordToRow).map
      (fun kvs => (dfColumns (recs.map recordToRow)).map
        (fun c => ((kvs.lookup c).getD ""))) }

/-- The lines of `df.to_csv(index=False)`: a header line of the column names
joined by commas, then one line per row, no index column.  (No field produced
by the normalizer contains a comma or a quote, so pandas quoting never
fires.) -/
def csvLines (df : DataFrame) : List String :=
  String.intercalate "," df.columns :: df.rows.map (fun row => String.intercalate "," row)

/-- The fixed export column order of the spec. -/
def sixColumns : List String :=
  ["Post Date", "Value Date", "Details", "Debit", "Credit", "Balance"]

/-! Concrete inputs used by the scenario theorems. -/

/-- The one-table one-row scenario input of the spec. -/
def c1TD : TablesData :=
  { number_of_tables := 1
    tables := [{ table_number := 1, columns := ["Col1"], row_count := 1
                 data := [[("Col1", Cell.str "15/03/24 15/03/24 CREDIT 2,500.00 10,000.00Cr")]]
                 page := some 1 }]
    error := none }

/-- The record the spec scenario expects. -/
def c1Rec : TransactionRecord :=
  { postDate := "15/03/24", valueDate := "15/03/24", details := "CREDIT"
    debit := "", credit := "2500.00", balance := "10000.00" }

/-- A one-row DEBIT input exercising the debit branch. -/
def c2TD : TablesData :=
  { number_of_tables := 1
    tables := [{ table_number := 1, columns := ["Col1"], row_count := 1
                 data := [[("Col1", Cell.str "01/02/24 03/02/24 DEBIT 1,000.00 5,000.00Dr")]]
                 page := none }]
    error := none }

/-- The record produced from `c2TD`. -/
def c2Rec : TransactionRecord :=
  { postDate := "01/02/24", valueDate := "03/02/24", details := "DEBIT"
    debit := "1000.00", credit := "", balance := "5000.00" }

/-- A well-formed transaction line whose match feeds the C4 witness. -/
def c4wText : String := "05/05/24 06/05/24 CREDIT 1,234.56 7,890.12Cr"

/-- The single match of the pattern in `c4wText`. -/
def c4wMatch : TxnMatch :=
  { post := "05/05/24", value := "06/05/24", word := "CREDIT"
    amt := "1,234.56", bal := "7,890.12" }

/-- One table whose single row flattens to the two-transaction text of P6. -/
def c5TD : TablesData :=
  { number_of_tables := 1
    tables := [{ table_number := 1, columns := ["Col1"], row_count := 1
                 data := [[("Col1", Cell.str
                   "01/01/24 02/01/24 DEBIT 100.00 900.00Dr 03/01/24 04/01/24 CREDIT 50.00 950.00Cr")]]
                 page := none }]
    error := none }

/-- First record of the P6 row. -/
def c5RecA : TransactionRecord :=
  { postDate := "01/01/24", valueDate := "02/01/24", details := "DEBIT"
    debit := "100.00", credit := "", balance := "900.00" }

/-- Second record of the P6 row. -/
def c5RecB : TransactionRecord :=
  { postDate := "03/01/24", valueDate := "04/01/24", details := "CREDIT"
    debit := "", credit := "50.00", balance := "950.00" }

/-- One table of rows that must all contribute zero records: an incomplete
pattern, a four-digit year, a missing Dr/Cr suffix, and a row with only
whitespace/numeric/null cells. -/
def c6TD : TablesData :=
  { number_of_tables := 1
    tables := [{ table_number := 1, columns := ["Col1"], row_count := 4
                 data := [
                   [("Col1", Cell.str "Reference ABC 01/01/24")],
                   [("Col1", Cell.str "01/01/2024 02/01/2024 DEBIT 100.00 900.00Dr")],
                   [("Col1", Cell.str "01/01/24 02/01/24 DEBIT 100.00 900.00")],
                   [("A", Cell.str "   "), ("B", Cell.num 5), ("C", Cell.null)]]
                 page := none }]
    error := none }

/-- Table T1 of the order-preservation scenario: one match m1. -/
def c7T1 : ExtractedTable :=
  { table_number := 1, columns := ["Col1"], row_count := 1
    data := [[("Col1", Cell.str "01/01/24 02/01/24 DEBIT 10.00 90.00Dr")]]
    page := none }

/-- Table T2 of the order-preservation scenario: matches m2 and m3 in one row. -/
def c7T2 : ExtractedTable :=
  { table_number := 2, columns := ["Col1"], row_count := 1
    data := [[("Col1", Cell.str
      "03/01/24 04/01/24 CREDIT 20.00 110.00Cr 05/01/24 06/01/24 DEBIT 5.00 105.00Dr")]]
    page := none }

/-- The tables `[T1, T2]` of the order-preservation scenario. -/
def c7TD : TablesData :=
  { number_of_tables := 2, tables := [c7T1, c7T2], error := none }

/-- Record of match m1. -/
def c7m1 : TransactionRecord :=
  { postDate := "01/01/24", valueDate := "02/01/24", details := "DEBIT"
    debit := "10.00", credit := "", balance := "90.00" }

/-- Record of match m2. -/
def c7m2 : TransactionRecord :=
  { postDate := "03/01/24", valueDate := "04/01/24", details := "CREDIT"
    debit := "", credit := "20.00", balance := "110.00" }

/-- Record of match m3. -/
def c7m3 : TransactionRecord :=
  { postDate := "05/01/24", valueDate := "06/01/24", details := "DEBIT"
    debit := "5.00", credit := "", balance := "105.00" }

/-- A small input with a nonempty record list, for the export witness. -/
def c9TD : TablesData :=
  { number_of_tables := 1
    tables := [{ table_number := 1, columns := ["Col1"], row_count := 1
                 data := [[("Col1", Cell.str "10/04/24 11/04/24 CREDIT 7.50 107.50Cr")]]
                 page := none }]
    error := none }

/-- The unanchored-match input: the first date starts inside the token
`101/01/24` and the suffix `Cr` is consumed out of `Crore`. -/
def c10TD : TablesData :=
  { number_of_tables := 1
    tables := [{ table_number := 1, columns := ["Col1"], row_count := 1
                 data := [[("Col1", Cell.str "101/01/24 02/01/24 DEBIT 100.00 900.00Crore")]]
                 page := none }]
    error := none }

/-- The record produced from `c10TD`. -/
def c10Rec : TransactionRecord :=
  { postDate := "01/01/24", valueDate := "02/01/24", details := "DEBIT"
    debit := "100.00", credit := "", balance := "900.00" }

/-! Basic facts about the sub-pattern parsers. -/

theorem toList_asString (l : List Char) : (List.asString l).toList = l := rfl

theorem pPlus_eq_some {p : Char → Bool} {s g r : List Char}
    (h : pPlus p s = some (g, r)) :
    g = s.takeWhile p ∧ r = s.dropWhile p ∧ g ≠ [] := by
  unfold pPlus at h
  split at h
  · exact absurd h (by simp)
  · rename_i hne
    simp only [Option.some.injEq, Prod.mk.injEq] at h
    simp only [List.isEmpty_iff] at hne
    exact ⟨h.1.symm, h.2.symm, fun hg => hne (h.1 ▸ hg)⟩

theorem pPlus_lt {p : Char → Bool} {s g r : List Char}
    (h : pPlus p s = some (g, r)) : r.length < s.length := by
  obtain ⟨hg, hr, hne⟩ := pPlus_eq_some h
  have hs : s.takeWhile p ++ s.dropWhile p = s := List.takeWhile_append_dropWhile p s
  have hlen := congrArg List.length hs
  simp only [List.length_append] at hlen
  have hpos : 0 < g.length := List.length_pos.mpr hne
  subst hg hr
  omega

theorem isDateChars_length {l : List Char} (h : isDateChars l = true) : l.length = 8 := by
  unfold isDateChars at h
  split at h
  · rename_i d1 d2 s1 d3 d4 s2 d5 d6
    simp
  · exact absurd h (by simp)

theorem pDate_eq_some {s g r : List Char} (h : pDate s = some (g, r)) :
    g = s.take 8 ∧ r = s.drop 8 ∧ 8 ≤ s.length := by
  unfold pDate at h
  split at h
  · rename_i hd
    simp only [Option.some.injEq, Prod.mk.injEq] at h
    have h8 := isDateChars_length hd
    simp only [List.length_take] at h8
    exact ⟨h.1.symm, h.2.symm, by omega⟩
  · exact absurd h (by simp)

theorem pDate_lt {s g r : List Char} (h : pDate s = some (g, r)) :
    r.length + 8 = s.length := by
  obtain ⟨hg, hr, h8⟩ := pDate_eq_some h
  subst hr
  simp only [List.length_drop]
  omega

theorem pAmount_eq_some {s g r : List Char} (h : pAmount s = some (g, r)) :
    (∃ ds a b, g = ds ++ ['.', a, b] ∧ ds ≠ [] ∧ ds.all digitCommaC = true ∧
      digitC a = true ∧ digitC b = true) ∧ r.length + 4 ≤ s.length := by
  unfold pAmount at h
  cases hp : pPlus digitCommaC s with
  | none => rw [hp] at h; exact absurd h (by simp)
  | some p =>
    rw [hp] at h
    obtain ⟨ds, r1⟩ := p
    rcases r1 with _ | ⟨dot, r1a⟩
    · exact absurd h (by simp)
    rcases r1a with _ | ⟨a, r1b⟩
    · exact absurd h (by simp)
    rcases r1b with _ | ⟨b, r2⟩
    · exact absurd h (by simp)
    simp only at h
    split at h
    · rename_i hguard
      simp only [Bool.and_eq_true, beq_iff_eq] at hguard
      obtain ⟨⟨hdot, ha⟩, hb⟩ := hguard
      simp only [Option.some.injEq, Prod.mk.injEq] at h
      obtain ⟨hg, hr⟩ := h
      obtain ⟨hds, hrest, hne⟩ := pPlus_eq_some hp
      have hall : ds.all digitCommaC = true := hds ▸ List.all_takeWhile
      refine ⟨⟨ds, a, b, by rw [← hg, hdot], hne, hall, ha, hb⟩, ?_⟩
      have hs : s.takeWhile digitCommaC ++ s.dropWhile digitCommaC = s :=
        List.takeWhile_append_dropWhile digitCommaC s
      have hlen := congrArg List.length hs
      simp only [List.length_append] at hlen
      rw [← hds] at hlen
      have hpos : 0 < ds.length := List.length_pos.mpr hne
      have hr1 : (s.dropWhile digitCommaC).length = r2.length + 3 := by
        rw [← hrest]; simp
      subst hr
      omega
    · exact absurd h (by simp)

theorem pSuffix_eq_some {s r : List Char} (h : pSuffix s = some r) :
    r.length + 2 = s.length := by
  unfold pSuffix at h
  rcases s with _ | ⟨a, sa⟩
  · exact absurd h (by simp)
  rcases sa with _ | ⟨b, t⟩
  · exact absurd h (by simp)
  simp only at h
  split at h
  · simp only [Option.some.injEq] at h
    subst h
    simp
  · exact absurd h (by simp)

theorem matchAt_eq_some {s : List Char} {m : TxnMatch} {rest : List Char}
    (h : matchAt s = some (m, rest)) :
    AmtShape m.amt ∧ AmtShape m.bal ∧ rest.length < s.length := by
  unfold matchAt at h
  simp only [Option.bind_eq_some, Option.some.injEq, Prod.mk.injEq] at h
  obtain ⟨p1, h1, p2, h2, p3, h3, p4, h4, p5, h5, p6, h6, p7, h7, p8, h8, p9, h9,
    r10, h10, hm, hrest⟩ := h
  have ha7 := pAmount_eq_some h7
  have ha9 := pAmount_eq_some h9
  have l1 := pDate_lt h1
  have l2 := pPlus_lt h2
  have l3 := pDate_lt h3
  have l4 := pPlus_lt h4
  have l5 := pPlus_lt h5
  have l6 := pPlus_lt h6
  have l8 := pPlus_lt h8
  have l10 := pSuffix_eq_some h10
  subst hm
  constructor
  · obtain ⟨⟨ds, a, b, hds⟩, _⟩ := ha7
    exact ⟨ds, a, b, by rw [toList_asString, hds.1], hds.2.1, hds.2.2.1, hds.2.2.2.1,
      hds.2.2.2.2⟩
  constructor
  · obtain ⟨⟨ds, a, b, hds⟩, _⟩ := ha9
    exact ⟨ds, a, b, by rw [toList_asString, hds.1], hds.2.1, hds.2.2.1, hds.2.2.2.1,
      hds.2.2.2.2⟩
  · subst hrest
    omega

theorem matchAt_lt {s : List Char} {m : TxnMatch} {rest : List Char}
    (h : matchAt s = some (m, rest)) : rest.length < s.length :=
  (matchAt_eq_some h).2.2

/-! Facts about the finditer scan. -/

theorem findAllAux_nil : ∀ fuel, findAllAux fuel [] = [] := by
  intro fuel
  cases fuel <;> rfl

theorem mem_findAllAux {m : TxnMatch} :
    ∀ fuel s, m ∈ findAllAux fuel s → ∃ s0 rest, matchAt s0 = some (m, rest) := by
  intro fuel
  induction fuel with
  | zero => intro s h; simp [findAllAux] at h
  | succ n ih =>
    intro s h
    simp only [findAllAux] at h
    cases hm : matchAt s with
    | some p =>
      rw [hm] at h
      have hcons : m ∈ p.1 :: findAllAux n p.2 := h
      rcases List.mem_cons.mp hcons with hEq | hMem
      · exact ⟨s, p.2, by rw [hm, hEq]⟩
      · exact ih p.2 hMem
    | none =>
      rw [hm] at h
      cases s with
      | nil =>
        have hnil : m ∈ ([] : List TxnMatch) := h
        simp at hnil
      | cons c t =>
        have ht : m ∈ findAllAux n t := h
        exact ih t ht

theorem mem_findAll {m : TxnMatch} {s : List Char} (h : m ∈ findAll s) :
    ∃ s0 rest, matchAt s0 = some (m, rest) :=
  mem_findAllAux s.length s h

/-- The fuel used by `findAll` is irrelevant as soon as it covers the input
length: every match consumes at least one character, so a scan over a string
of length n takes at most n steps.  This certifies that `findAll` (fuel = the
input length) computes exactly the unbounded left-to-right scan of
`re.finditer`. -/
theorem findAllAux_fuel_irrel :
    ∀ n f1 f2 s, s.length = n → n ≤ f1 → n ≤ f2 →
      findAllAux f1 s = findAllAux f2 s := by
  intro n
  induction n using Nat.strong_induction_on with
  | _ n ih =>
    intro f1 f2 s hn h1 h2
    cases s with
    | nil => rw [findAllAux_nil, findAllAux_nil]
    | cons c t =>
      have hlen : t.length + 1 = n := by simpa using hn
      cases f1 with
      | zero => exact absurd h1 (by omega)
      | succ a =>
        cases f2 with
        | zero => exact absurd h2 (by omega)
        | succ b =>
          simp only [findAllAux]
          cases hm : matchAt (c :: t) with
          | some p =>
            have hlt : p.2.length < (c :: t).length := matchAt_lt (by rw [hm])
            have hlt2 : p.2.length < n := by
              simp only [List.length_cons] at hlt
              omega
            exact congrArg (p.1 :: ·)
              (ih p.2.length hlt2 a b p.2 rfl (by omega) (by omega))
          | none =>
            exact ih t.length (by omega) a b t rfl (by omega) (by omega)

/-- Any record in the output of `processTables` originates from one regex
match against one row's flattened text. -/
theorem mem_processTables {r : TransactionRecord} {ts : List ExtractedTable}
    (h : r ∈ processTables ts) :
    ∃ t ∈ ts, ∃ row ∈ t.data, ∃ m ∈ findAll (rowText row).toList,
      r = recordOfMatch m := by
  unfold processTables at h
  rw [List.mem_flatten] at h
  obtain ⟨l, hl, hr⟩ := h
  rw [List.mem_map] at hl
  obtain ⟨t, ht, hteq⟩ := hl
  subst hteq
  rw [List.mem_flatten] at hr
  obtain ⟨l2, hl2, hr2⟩ := hr
  rw [List.mem_map] at hl2
  obtain ⟨row, hrow, hroweq⟩ := hl2
  subst hroweq
  unfold processRow at hr2
  split at hr2
  · simp at hr2
  · rw [List.mem_map] at hr2
    obtain ⟨m, hm, hmeq⟩ := hr2
    exact ⟨t, ht, row, hrow, m, hm, hmeq.symm⟩

theorem mem_process_transactions {r : TransactionRecord} {td : TablesData}
    (h : r ∈ process_transactions td) :
    ∃ t ∈ td.tables, ∃ row ∈ t.data, ∃ m ∈ findAll (rowText row).toList,
      r = recordOfMatch m :=
  mem_processTables h

/-! Facts about flattening and string helpers. -/

theorem all_dropWhile_iff {α : Type} {p : α → Bool} {l : List α} :
    (∀ x ∈ l.dropWhile p, p x = true) ↔ (∀ x ∈ l, p x = true) := by
  constructor
  · intro h x hx
    have hx2 : x ∈ l.takeWhile p ++ l.dropWhile p := by
      rw [List.takeWhile_append_dropWhile]; exact hx
    rcases List.mem_append.mp hx2 with hl | hr
    · exact List.all_eq_true.mp List.all_takeWhile x hl
    · exact h x hr
  · intro h x hx
    have hx2 : x ∈ l.takeWhile p ++ l.dropWhile p := List.mem_append.mpr (Or.inr hx)
    rw [List.takeWhile_append_dropWhile] at hx2
    exact h x hx2

theorem asString_eq_empty_iff {l : List Char} : List.asString l = "" ↔ l = [] := by
  rw [String.ext_iff]
  exact Iff.rfl

theorem pyStrip_eq_empty_iff {s : String} :
    pyStrip s = "" ↔ s.toList.all spaceC = true := by
  unfold pyStrip
  rw [asString_eq_empty_iff, List.reverse_eq_nil_iff, List.dropWhile_eq_nil_iff]
  constructor
  · intro h
    rw [List.all_eq_true]
    exact all_dropWhile_iff.mp (fun y hy => h y (List.mem_reverse.mpr hy))
  · intro h y hy
    have hy2 : y ∈ s.toList.dropWhile spaceC := List.mem_reverse.mp hy
    have hy3 : y ∈ s.toList := by
      have h4 : y ∈ s.toList.takeWhile spaceC ++ s.toList.dropWhile spaceC :=
        List.mem_append.mpr (Or.inr hy2)
      rwa [List.takeWhile_append_dropWhile] at h4
    exact List.all_eq_true.mp h y hy3

theorem intercalate_go_append (sep : String) :
    ∀ (xs : List String) (acc1 acc2 : String),
      String.intercalate.go (acc1 ++ acc2) sep xs =
        acc1 ++ String.intercalate.go acc2 sep xs := by
  intro xs
  induction xs with
  | nil => intro acc1 acc2; rfl
  | cons a as ih =>
    intro acc1 acc2
    show String.intercalate.go (acc1 ++ acc2 ++ sep ++ a) sep as =
      acc1 ++ String.intercalate.go (acc2 ++ sep ++ a) sep as
    have hassoc : acc1 ++ acc2 ++ sep ++ a = acc1 ++ (acc2 ++ sep ++ a) := by
      rw [String.append_assoc, String.append_assoc, String.append_assoc]
    rw [hassoc]
    exact ih acc1 (acc2 ++ sep ++ a)

theorem joinSp_eq_intercalate : ∀ xs : List String, joinSp xs = String.intercalate " " xs := by
  intro xs
  induction xs with
  | nil => rfl
  | cons x t ih =>
    cases t with
    | nil => rfl
    | cons y rest =>
      show x ++ " " ++ joinSp (y :: rest) = String.intercalate " " (x :: y :: rest)
      rw [ih]
      exact (intercalate_go_append " " rest (x ++ " ") y).symm

theorem filter_keep_eq : ∀ vals : List Cell,
    (vals.filter keepTest).filterMap cellStr = vals.filterMap specKeep := by
  intro vals
  induction vals with
  | nil => rfl
  | cons c t ih =>
    cases c with
    | str s =>
      by_cases hs : pyStrip s = ""
      · have hall : s.toList.all spaceC = true := pyStrip_eq_empty_iff.mp hs
        have h1 : keepTest (Cell.str s) = false := by simp [keepTest, hs]
        have h2 : specKeep (Cell.str s) = none := if_pos hall
        simp only [List.filter_cons, List.filterMap_cons, h1, h2]
        exact ih
      · have hall : s.toList.all spaceC = false := by
          cases hb : s.toList.all spaceC with
          | true => exact absurd (pyStrip_eq_empty_iff.mpr hb) hs
          | false => rfl
        have h1 : keepTest (Cell.str s) = true := by simp [keepTest, hs]
        have h2 : specKeep (Cell.str s) = some s :=
          if_neg (by intro hc; rw [hall] at hc; exact Bool.noConfusion hc)
        simp only [List.filter_cons, List.filterMap_cons, h1, h2, cellStr, if_true]
        rw [ih]
    | num n =>
      have h1 : keepTest (Cell.num n) = false := rfl
      have h2 : specKeep (Cell.num n) = none := rfl
      simp only [List.filter_cons, List.filterMap_cons, h1, h2]
      exact ih
    | null =>
      have h1 : keepTest Cell.null = false := rfl
      have h2 : specKeep Cell.null = none := rfl
      simp only [List.filter_cons, List.filterMap_cons, h1, h2]
      exact ih

/-! Facts about comma stripping and amount shapes. -/

theorem digitC_ne_comma {c : Char} (h : digitC c = true) : (c == ',') = false := by
  cases hb : c == ','
  · rfl
  · have hc : c = ',' := by
      have := hb
      rwa [beq_iff_eq] at this
    subst hc
    exact absurd h (by decide)

theorem removeCommas_toList (s : String) :
    (removeCommas s).toList = s.toList.filter (fun c => !(c == ',')) := rfl

theorem all_not_comma_removeCommas (s : String) :
    (removeCommas s).toList.all (fun c => !(c == ',')) = true := by
  rw [removeCommas_toList, List.all_eq_true]
  intro x hx
  exact (List.mem_filter.mp hx).2

theorem removeCommas_amtShape {t : String} (h : AmtShape t) :
    ∃ ds a b, (removeCommas t).toList = ds ++ ['.', a, b] ∧ ds.all digitC = true ∧
      digitC a = true ∧ digitC b = true := by
  obtain ⟨ds, a, b, hlist, hne, hall, ha, hb⟩ := h
  refine ⟨ds.filter (fun c => !(c == ',')), a, b, ?_, ?_, ha, hb⟩
  · rw [removeCommas_toList, hlist, List.filter_append]
    congr 1
    simp [List.filter_cons, digitC_ne_comma ha, digitC_ne_comma hb]
  · rw [List.all_eq_true]
    intro x hx
    obtain ⟨hxd, hxc⟩ := List.mem_filter.mp hx
    have hdc : digitCommaC x = true := List.all_eq_true.mp hall x hxd
    have hxc2 : (x == ',') = false := by
      cases hb2 : x == ','
      · rfl
      · rw [hb2] at hxc
        exact absurd hxc (by decide)
    unfold digitCommaC at hdc
    rw [hxc2, Bool.or_false] at hdc
    exact hdc

/-! The exception model always succeeds. -/

theorem keepTest_isStr {c : Cell} (h : keepTest c = true) : isStrCell c = true := by
  cases c with
  | str s => rfl
  | num n => simp [keepTest] at h
  | null => simp [keepTest] at h

theorem rowTextE_eq_ok (row : Row) : rowTextE row = Except.ok (rowText row) := by
  unfold rowTextE pyJoinE rowText
  have hall : ((row.map Prod.snd).filter keepTest).all isStrCell = true := by
    rw [List.all_eq_true]
    intro c hc
    exact keepTest_isStr (List.mem_filter.mp hc).2
  rw [if_pos hall]

theorem processRowE_eq_ok (row : Row) : processRowE row = Except.ok (processRow row) := by
  unfold processRowE processRow
  rw [rowTextE_eq_ok]
  show (if rowText row = "" then (Except.ok [] : Except String (List TransactionRecord))
        else Except.ok ((findAll (rowText row).toList).map recordOfMatch)) =
    Except.ok (if rowText row = "" then []
               else (findAll (rowText row).toList).map recordOfMatch)
  split <;> rfl

theorem mapM_eq_ok {α β : Type} (f : α → Except String β) (g : α → β)
    (hf : ∀ a, f a = Except.ok (g a)) :
    ∀ l : List α, l.mapM f = Except.ok (l.map g) := by
  intro l
  induction l with
  | nil => rfl
  | cons a t ih =>
    rw [List.mapM_cons, hf, ih]
    rfl

theorem processTablesE_eq_ok (ts : List ExtractedTable) :
    processTablesE ts = Except.ok (processTables ts) := by
  unfold processTablesE processTables
  rw [mapM_eq_ok _ (fun t : ExtractedTable => (t.data.map processRow).flatten)
    (fun t => by rw [mapM_eq_ok processRowE processRow processRowE_eq_ok t.data]; rfl) ts]
  rfl

/-! Record shaping and export facts. -/

theorem recordOfMatch_def (m : TxnMatch) :
    recordOfMatch m =
      { postDate := m.post, valueDate := m.value, details := pyUpper m.word
        debit := if pyUpper m.word = "DEBIT" then removeCommas m.amt else ""
        credit := if pyUpper m.word = "CREDIT" then removeCommas m.amt else ""
        balance := removeCommas m.bal } := rfl

theorem regexAmountToken_of_amtShape {t : String} (h : AmtShape t) :
    regexAmountToken t = true := by
  obtain ⟨ds, a, b, hlist, hne, hall, ha, hb⟩ := h
  unfold regexAmountToken
  rw [hlist]
  have hn : (ds ++ ['.', a, b]).length - 3 = ds.length := by
    rw [List.length_append]
    simp
  rw [hn, List.drop_left, List.take_left]
  have hie : ds.isEmpty = false := by
    cases hd : ds with
    | nil => exact absurd hd hne
    | cons x xs => rfl
  simp [ha, hb, hall, hie]

theorem keys_recordToRow (r : TransactionRecord) :
    (recordToRow r).map Prod.fst = sixColumns := rfl

theorem dfColumns_fold_six :
    ∀ kvrows : List (List (String × String)),
      (∀ kv ∈ kvrows, kv.map Prod.fst = sixColumns) →
      kvrows.foldl
        (fun acc kvs => acc ++ (kvs.map Prod.fst).filter (fun k => !(acc.contains k)))
        sixColumns = sixColumns := by
  intro kvrows
  induction kvrows with
  | nil => intro _; rfl
  | cons kv t ih =>
    intro h
    have hkv := h kv (List.mem_cons_self kv t)
    simp only [List.foldl_cons]
    rw [hkv]
    have hfilter : sixColumns.filter (fun k => !(sixColumns.contains k)) = [] := by decide
    rw [hfilter, List.append_nil]
    exact ih (fun kv2 h2 => h kv2 (List.mem_cons_of_mem _ h2))

theorem dfColumns_six {kvrows : List (List (String × String))}
    (hne : kvrows ≠ []) (h : ∀ kv ∈ kvrows, kv.map Prod.fst = sixColumns) :
    dfColumns kvrows = sixColumns := by
  cases kvrows with
  | nil => exact absurd rfl hne
  | cons kv t =>
    unfold dfColumns
    simp only [List.foldl_cons]
    rw [h kv (List.mem_cons_self kv t)]
    have hfirst : ([] : List String) ++
        sixColumns.filter (fun k => !(List.contains [] k)) = sixColumns := by decide
    rw [hfirst]
    exact dfColumns_fold_six t (fun kv2 h2 => h kv2 (List.mem_cons_of_mem _ h2))

theorem mkDataFrame_columns {recs : List TransactionRecord} (hne : recs ≠ []) :
    (mkDataFrame recs).columns = sixColumns := by
  apply dfColumns_six
  · intro hmap
    exact hne (List.map_eq_nil_iff.mp hmap)
  · intro kv hkv
    rw [List.mem_map] at hkv
    obtain ⟨r, _, hreq⟩ := hkv
    rw [← hreq]
    rfl

theorem mkDataFrame_rows (recs : List TransactionRecord) :
    (mkDataFrame recs).rows = recs.map (fun r =>
      [r.postDate, r.valueDate, r.details, r.debit, r.credit, r.balance]) := by
  cases recs with
  | nil => rfl
  | cons r0 t =>
    have hcols : dfColumns (List.map recordToRow (r0 :: t)) = sixColumns :=
      mkDataFrame_columns (show r0 :: t ≠ [] by simp)
    show ((r0 :: t).map recordToRow).map
        (fun kvs => (dfColumns ((r0 :: t).map recordToRow)).map
          (fun c => ((kvs.lookup c).getD ""))) = _
    rw [hcols, List.map_map]
    rfl

/-! Claim theorems. -/

/-- C1: the one-table one-row scenario with cell
"15/03/24 15/03/24 CREDIT 2,500.00 10,000.00Cr" produces exactly one record
with post date 15/03/24, value date 15/03/24, type CREDIT, empty debit,
credit 2500.00 and balance 10000.00; and in general every amount or balance
stored in an output record has its comma separators stripped while keeping
its digits and its decimal point with exactly two decimals (no rounding). -/
theorem spec_c1_scenario_and_numeric_normalization :
    process_transactions c1TD = [c1Rec] ∧
    ∀ (td : TablesData) (r : TransactionRecord), r ∈ process_transactions td →
      r.debit.toList.all (fun c => !(c == ',')) = true ∧
      r.credit.toList.all (fun c => !(c == ',')) = true ∧
      r.balance.toList.all (fun c => !(c == ',')) = true ∧
      (∃ ds a b, r.balance.toList = ds ++ ['.', a, b] ∧ ds.all digitC = true ∧
        digitC a = true ∧ digitC b = true) ∧
      (r.debit ≠ "" → ∃ ds a b, r.debit.toList = ds ++ ['.', a, b] ∧
        ds.all digitC = true ∧ digitC a = true ∧ digitC b = true) ∧
      (r.credit ≠ "" → ∃ ds a b, r.credit.toList = ds ++ ['.', a, b] ∧
        ds.all digitC = true ∧ digitC a = true ∧ digitC b = true) := by
  constructor
  · decide
  · intro td r hr
    obtain ⟨t, ht, row, hrow, m, hm, hrec⟩ := mem_process_transactions hr
    obtain ⟨s0, rest, hmatch⟩ := mem_findAll hm
    obtain ⟨hamt, hbal, _⟩ := matchAt_eq_some hmatch
    have hdeb : r.debit = (if pyUpper m.word = "DEBIT" then removeCommas m.amt else "") := by
      rw [hrec, recordOfMatch_def]
    have hcred : r.credit = (if pyUpper m.word = "CREDIT" then removeCommas m.amt else "") := by
      rw [hrec, recordOfMatch_def]
    have hbal2 : r.balance = removeCommas m.bal := by
      rw [hrec, recordOfMatch_def]
    refine ⟨?_, ?_, ?_, ?_, ?_, ?_⟩
    · rw [hdeb]
      split
      · exact all_not_comma_removeCommas m.amt
      · rfl
    · rw [hcred]
      split
      · exact all_not_comma_removeCommas m.amt
      · rfl
    · rw [hbal2]
      exact all_not_comma_removeCommas m.bal
    · rw [hbal2]
      exact removeCommas_amtShape hbal
    · rw [hdeb]
      split
      · intro _
        exact removeCommas_amtShape hamt
      · intro hne
        exact absurd rfl hne
    · rw [hcred]
      split
      · intro _
        exact removeCommas_amtShape hamt
      · intro hne
        exact absurd rfl hne

/-- Witness for C1: the general clause applied to the concrete scenario input
and its record. -/
theorem spec_c1_witness :
    c1Rec.balance.toList.all (fun c => !(c == ',')) = true ∧
    (∃ ds a b, c1Rec.balance.toList = ds ++ ['.', a, b] ∧ ds.all digitC = true ∧
      digitC a = true ∧ digitC b = true) :=
  ⟨(spec_c1_scenario_and_numeric_normalization.2 c1TD c1Rec (by decide)).2.2.1,
   (spec_c1_scenario_and_numeric_normalization.2 c1TD c1Rec (by decide)).2.2.2.1⟩

/-- C2: in every output record at most one of debit/credit is non-empty;
debit is non-empty only when the upper-cased type token is exactly DEBIT and
then holds the comma-stripped amount, credit only when it is exactly CREDIT;
any other token leaves both empty. -/
theorem spec_c2_debit_credit_exclusivity :
    ∀ (td : TablesData) (r : TransactionRecord), r ∈ process_transactions td →
      (r.debit = "" ∨ r.credit = "") ∧
      (r.debit ≠ "" → r.details = "DEBIT") ∧
      (r.credit ≠ "" → r.details = "CREDIT") ∧
      ∃ m, (∃ s0 rest, matchAt s0 = some (m, rest)) ∧ r = recordOfMatch m ∧
        r.details = pyUpper m.word ∧
        r.debit = (if r.details = "DEBIT" then removeCommas m.amt else "") ∧
        r.credit = (if r.details = "CREDIT" then removeCommas m.amt else "") := by
  intro td r hr
  obtain ⟨t, ht, row, hrow, m, hm, hrec⟩ := mem_process_transactions hr
  obtain ⟨s0, rest, hmatch⟩ := mem_findAll hm
  have hdet : r.details = pyUpper m.word := by rw [hrec, recordOfMatch_def]
  have hdeb : r.debit = (if pyUpper m.word = "DEBIT" then removeCommas m.amt else "") := by
    rw [hrec, recordOfMatch_def]
  have hcred : r.credit = (if pyUpper m.word = "CREDIT" then removeCommas m.amt else "") := by
    rw [hrec, recordOfMatch_def]
  refine ⟨?_, ?_, ?_, m, ⟨s0, rest, hmatch⟩, hrec, hdet, ?_, ?_⟩
  · by_cases h : pyUpper m.word = "CREDIT"
    · left
      rw [hdeb, if_neg (by rw [h]; decide)]
    · right
      rw [hcred, if_neg h]
  · intro hne
    by_cases h : pyUpper m.word = "DEBIT"
    · rw [hdet, h]
    · exact absurd (by rw [hdeb, if_neg h]) hne
  · intro hne
    by_cases h : pyUpper m.word = "CREDIT"
    · rw [hdet, h]
    · exact absurd (by rw [hcred, if_neg h]) hne
  · rw [hdet]
    exact hdeb
  · rw [hdet]
    exact hcred

/-- Witness for C2: the exclusivity clause at a concrete DEBIT record. -/
theorem spec_c2_witness : c2Rec.debit = "" ∨ c2Rec.credit = "" :=
  (spec_c2_debit_credit_exclusivity c2TD c2Rec (by decide)).1

/-- C3: the flattened row text is the space-separated concatenation, in
column order, of exactly those cells holding a string that is non-empty after
trimming whitespace; numeric, null and whitespace-only cells contribute
nothing, not even a separator. -/
theorem spec_c3_row_flattening (row : Row) :
    rowText row = String.intercalate " " ((row.map Prod.snd).filterMap specKeep) := by
  unfold rowText
  rw [filter_keep_eq, joinSp_eq_intercalate]

/-- C4 counterexample: the pattern accepts an amount token that does not
consist of one-or-more digits optionally grouped with commas — on the
flattened text "01/01/24 02/01/24 DEBIT ,.00 9.00Dr" it captures the amount
",.00", whose integer part is a lone comma with no digit at all, so the
claimed token shape is violated by a captured amount. -/
theorem spec_c4_counterexample :
    ((findAll "01/01/24 02/01/24 DEBIT ,.00 9.00Dr".toList).map (fun m => m.amt)
      = [",.00"]) ∧
    specAmountToken ",.00" = false := by decide

/-- C4 amended: an amount (or balance) token is one-or-more characters, each
a digit or a comma, followed by a literal decimal point and exactly 2 digits;
every substring captured as an amount or balance of a match has exactly this
shape. -/
theorem spec_c4_amount_token_shape :
    ∀ (l : List Char) (m : TxnMatch), m ∈ findAll l →
      regexAmountToken m.amt = true ∧ regexAmountToken m.bal = true := by
  intro l m hm
  obtain ⟨s0, rest, hmatch⟩ := mem_findAll hm
  obtain ⟨hamt, hbal, _⟩ := matchAt_eq_some hmatch
  exact ⟨regexAmountToken_of_amtShape hamt, regexAmountToken_of_amtShape hbal⟩

/-- Witness for the amended C4, at the single match of a concrete line. -/
theorem spec_c4_witness :
    regexAmountToken c4wMatch.amt = true ∧ regexAmountToken c4wMatch.bal = true :=
  spec_c4_amount_token_shape c4wText.toList c4wMatch (by decide)

/-- C5: the flattened text
"01/01/24 02/01/24 DEBIT 100.00 900.00Dr 03/01/24 04/01/24 CREDIT 50.00 950.00Cr",
reached through one table with one row, yields exactly two records: a DEBIT
record with debit 100.00 and balance 900.00 followed by a CREDIT record with
credit 50.00 and balance 950.00 — all non-overlapping matches are extracted,
not just the first. -/
theorem spec_c5_multi_match : process_transactions c5TD = [c5RecA, c5RecB] := by
  decide

/-- C6: rows whose flattened text has no full match of the pattern — an
incomplete pattern, a four-digit year, a missing Dr/Cr suffix — and rows
whose cells are all whitespace-only strings, numeric or null, contribute
zero records, with no partial-match fallback and no error. -/
theorem spec_c6_no_match_rows :
    process_transactions c6TD = [] ∧
    processRow [("Col1", Cell.str "Reference ABC 01/01/24")] = [] ∧
    processRow [("Col1", Cell.str "01/01/2024 02/01/2024 DEBIT 100.00 900.00Dr")] = [] ∧
    processRow [("Col1", Cell.str "01/01/24 02/01/24 DEBIT 100.00 900.00")] = [] ∧
    processRow [("A", Cell.str "   "), ("B", Cell.num 5), ("C", Cell.null)] = [] := by
  decide

/-- C7: the output is one flat sequence ordered by table, then row, then
match position, with no sorting: processing distributes over concatenation of
table lists and of row lists, and the concrete tables [T1, T2] with match m1
in T1 and matches m2, m3 in T2 yield exactly [m1, m2, m3]. -/
theorem spec_c7_order_preservation :
    (∀ ts us : List ExtractedTable,
      processTables (ts ++ us) = processTables ts ++ processTables us) ∧
    (∀ (tn : Nat) (cols : List String) (rc : Nat) (rows1 rows2 : List Row)
        (pg : Option Nat),
      processTables [⟨tn, cols, rc, rows1 ++ rows2, pg⟩] =
        processTables [⟨tn, cols, rc, rows1, pg⟩] ++
          processTables [⟨tn, cols, rc, rows2, pg⟩]) ∧
    process_transactions c7TD = [c7m1, c7m2, c7m3] := by
  refine ⟨?_, ?_, ?_⟩
  · intro ts us
    unfold processTables
    rw [List.map_append, List.flatten_append]
  · intro tn cols rc rows1 rows2 pg
    unfold processTables
    simp [List.map_append, List.flatten_append]
  · decide

/-- C8: the normalizer's operation, with the fallibility of its one
potentially-raising step made explicit, succeeds on every well-formed tables
input, returning the (possibly empty) record sequence and never an error. -/
theorem spec_c8_no_exceptions (td : TablesData) :
    process_transactionsE td = Except.ok (process_transactions td) :=
  processTablesE_eq_ok td.tables

/-- C9: every record dictionary exposes exactly the keys Post Date, Value
Date, Details, Debit, Credit, Balance in this order; the dataframe built from
a non-empty record list has exactly these columns in this order; its rows are
exactly the six field values of each record in this order with no index
column; and the CSV rendering has this header line and one line per record. -/
theorem spec_c9_export_columns :
    (∀ r : TransactionRecord, (recordToRow r).map Prod.fst = sixColumns) ∧
    (∀ recs : List TransactionRecord, (mkDataFrame recs).rows =
      recs.map (fun r => [r.postDate, r.valueDate, r.details, r.debit, r.credit, r.balance])) ∧
    (∀ td : TablesData, process_transactions td ≠ [] →
      (mkDataFrame (process_transactions td)).columns = sixColumns ∧
      (csvLines (mkDataFrame (process_transactions td))).head? =
        some "Post Date,Value Date,Details,Debit,Credit,Balance" ∧
      (csvLines (mkDataFrame (process_transactions td))).length =
        (process_transactions td).length + 1) := by
  refine ⟨keys_recordToRow, mkDataFrame_rows, ?_⟩
  intro td hne
  have hcols := mkDataFrame_columns hne
  refine ⟨hcols, ?_, ?_⟩
  · unfold csvLines
    rw [hcols]
    rfl
  · unfold csvLines
    rw [mkDataFrame_rows]
    simp

/-- Witness for C9: the export clause at a concrete non-empty input. -/
theorem spec_c9_witness :
    (mkDataFrame (process_transactions c9TD)).columns = sixColumns :=
  (spec_c9_export_columns.2.2 c9TD (by decide)).1

/-- C10: the pattern is not anchored to token boundaries — on the flattened
text "101/01/24 02/01/24 DEBIT 100.00 900.00Crore" exactly one record is
produced, whose post date 01/01/24 starts inside the token 101/01/24 and
whose match consumes the suffix Cr out of Crore, giving balance 900.00. -/
theorem spec_c10_unanchored_match : process_transactions c10TD = [c10Rec] := by
  decide

end BankParse
